import Mathlib

/-!
Verification of the envvault second-factor and master-password-rotation core.

JavaScript strings are modelled as Lean `String` (char-level operations go
through `String.data`), byte sequences as `List Nat` with values reduced
mod 256, and the bcrypt primitives (`hash`, `compare` from bcryptjs) as
explicit function parameters, since bcryptjs is an external library.
Database rows touched by the routes are modelled as explicit record
structures, and each route handler as a pure function from the pre-state
and the request body to the post-state and the HTTP response.
-/

namespace EnvVault

/-! ## src/lib/backup-codes.ts -/

/-- `SALT_ROUNDS` constant of src/lib/backup-codes.ts. -/
def SALT_ROUNDS : Nat := 10

/-- Normalization applied by both `hashBackupCode` and `verifyBackupCode`:
the source removes every dash with a global regex replace and then
uppercases the result. -/
def normalizeCode (code : String) : String :=
  String.mk ((code.data.filter (fun c => c != '-')).map Char.toUpper)

/-- `hashBackupCode` of src/lib/backup-codes.ts: bcrypt-hash the normalized
code with `SALT_ROUNDS`; `bhash` stands for bcryptjs `hash`. -/
def hashBackupCode (bhash : String → Nat → String) (code : String) : String :=
  bhash (normalizeCode code) SALT_ROUNDS

/-- The `for` loop of `verifyBackupCode`, carrying the current index `i`:
returns the index of the first stored hash the candidate compares equal to,
or `-1` when the list is exhausted. -/
def verifyLoop (compare : String → String → Bool) (normalizedCode : String) :
    List String → Nat → Int
  | [], _ => -1
  | h :: hs, i =>
    if compare normalizedCode h then (i : Int) else verifyLoop compare normalizedCode hs (i + 1)

/-- `verifyBackupCode` of src/lib/backup-codes.ts; `compare` stands for
bcryptjs `compare`. -/
def verifyBackupCode (compare : String → String → Bool) (code : String)
    (hashedCodes : List String) : Int :=
  verifyLoop compare (normalizeCode code) hashedCodes 0

/-- JavaScript `Array.prototype.filter` with the element index exposed to the
predicate, starting the index count at `i`. -/
def filterWithIdx (p : Nat → Bool) : List α → Nat → List α
  | [], _ => []
  | x :: xs, i => if p i then x :: filterWithIdx p xs (i + 1) else filterWithIdx p xs (i + 1)

/-- `removeBackupCode` of src/lib/backup-codes.ts:
`hashedCodes.filter((_, index) => index !== usedIndex)`. -/
def removeBackupCode (hashedCodes : List String) (usedIndex : Int) : List String :=
  filterWithIdx (fun i => (i : Int) != usedIndex) hashedCodes 0

/-! ## src/lib/totp.ts — backup-code generation and formatting -/

/-- Lowercase hexadecimal digits, as produced by JavaScript `toString(16)`:
the ten decimal digits followed by the letters a through f. -/
def hexCharsLower : List Char :=
  (List.range 10).map (fun i => Char.ofNat (48 + i))
    ++ (List.range 6).map (fun i => Char.ofNat (97 + i))

/-- `b.toString(16).padStart(2, "0")` for a byte `b < 256`: exactly two
lowercase hex digits. -/
def byteToHexPadded (b : Nat) : List Char :=
  [hexCharsLower.getD (b / 16 % 16) '0', hexCharsLower.getD (b % 16) '0']

/-- `generateBackupCodes` of src/lib/totp.ts. The platform RNG
(`crypto.getRandomValues(new Uint8Array(4))`) is modelled by `rand i j`,
the `j`-th random byte drawn for the `i`-th code, reduced mod 256. The
count defaults to 8 as in the source. -/
def generateBackupCodes (rand : Nat → Nat → Nat) (count : Nat := 8) : List String :=
  (List.range count).map (fun i =>
    String.mk ((((List.range 4).map (fun j => rand i j % 256)).flatMap byteToHexPadded).map
      Char.toUpper))

/-- `formatBackupCode` of src/lib/totp.ts: insert a dash after the first four
characters (`code.slice(0, 4) + "-" + code.slice(4)`). -/
def formatBackupCode (code : String) : String :=
  String.mk (code.data.take 4 ++ '-' :: code.data.drop 4)

/-! ## src/app/api/auth/2fa/backup/route.ts -/

/-- The user columns selected by the backup-code route. -/
structure BackupUser where
  twoFactorEnabled : Bool
  twoFactorBackupCodes : List String
deriving DecidableEq

/-- HTTP responses the backup-code route can produce. -/
inductive BackupResponse where
  | error (status : Nat) (message : String)
  | success (message : String) (remainingCodes : Nat)
deriving DecidableEq

namespace BackupCodesRoute

/-- `POST` of src/app/api/auth/2fa/backup/route.ts, from the body parse
onward (the session check is outside the modelled scope). A missing or
non-string `code` is modelled by the empty string (the JavaScript falsy
check `!code`). Returns the updated user row and the response. -/
def POST (compare : String → String → Bool) (user : BackupUser) (code : String) :
    BackupUser × BackupResponse :=
  if code = "" then (user, .error 400 "Backup code is required")
  else if user.twoFactorEnabled = false then
    (user, .error 400 "Two-factor authentication is not enabled")
  else if user.twoFactorBackupCodes.isEmpty then
    (user, .error 400 "No backup codes available")
  else
    let matchedIndex := verifyBackupCode compare code user.twoFactorBackupCodes
    if matchedIndex = -1 then (user, .error 401 "Invalid backup code")
    else
      let remainingCodes := removeBackupCode user.twoFactorBackupCodes matchedIndex
      ({ user with twoFactorBackupCodes := remainingCodes },
        .success "Backup code verified successfully" remainingCodes.length)

end BackupCodesRoute

/-! ## src/app/api/auth/2fa/disable/route.ts -/

/-- The user row as seen by the 2FA-disable route. The route selects
`password` and `twoFactorEnabled`; `twoFactorSecret` and
`twoFactorBackupCodes` are carried to observe what the update writes. -/
structure DisableUser where
  password : Option String
  twoFactorEnabled : Bool
  twoFactorSecret : Option String
  twoFactorBackupCodes : List String
deriving DecidableEq

/-- HTTP responses the 2FA-disable route can produce. -/
inductive DisableResponse where
  | error (status : Nat) (message : String)
  | success (message : String)
deriving DecidableEq

namespace TwoFactorDisableRoute

/-- `POST` of src/app/api/auth/2fa/disable/route.ts, from the body parse
onward; `compare` stands for bcryptjs `compare`. The update writes
`twoFactorEnabled: false` and `twoFactorSecret: null` — and nothing else. -/
def POST (compare : String → String → Bool) (user : DisableUser) (password : String) :
    DisableUser × DisableResponse :=
  if password = "" then (user, .error 400 "Password is required to disable 2FA")
  else
    match user.password with
    | none => (user, .error 400 "Cannot disable 2FA for OAuth accounts")
    | some stored =>
      if user.twoFactorEnabled = false then
        (user, .error 400 "Two-factor authentication is not enabled")
      else if compare password stored = false then
        (user, .error 401 "Invalid password")
      else
        ({ user with twoFactorEnabled := false, twoFactorSecret := none },
          .success "Two-factor authentication disabled")

end TwoFactorDisableRoute

/-! ## src/app/api/user/change-master-password route (src/unnamed/part_008) -/

/-- The five columns of a `variable` / `globalVariable` row the rotation
route reads or writes, and likewise the shape of one entry of the request
body's `variables` / `globalVariables` arrays. -/
structure VariableRecord where
  id : String
  keyEncrypted : String
  valueEncrypted : String
  ivKey : String
  ivValue : String
deriving DecidableEq

/-- The request body `ChangePasswordRequest` of src/unnamed/part_008. The
source field `variables` is rendered `vars` because `variables` is a
reserved word in Lean 4. -/
structure ChangePasswordRequest where
  currentPasswordHash : String
  newMasterPasswordHash : String
  newSalt : String
  vars : List VariableRecord
  globalVariables : List VariableRecord

/-- The per-user storage the rotation route touches: the user row's
`masterPassword` bcrypt hash and `encryptionSalt`, plus this user's
`variable` and `globalVariable` rows. -/
structure RotationState where
  masterPassword : Option String
  encryptionSalt : String
  vars : List VariableRecord
  globalVariables : List VariableRecord
deriving DecidableEq

/-- HTTP responses the rotation route can produce. -/
inductive RotationResponse where
  | error (status : Nat) (message : String)
  | success (message : String) (newSalt : String)
deriving DecidableEq

/-- Prisma `tx.variable.update({ where: { id }, data: {...} })`: overwrite
the four ciphertext columns of the row(s) with the given id; fails (throwing
inside the transaction) when no row has that id. -/
def updateVariableRecord (rows : List VariableRecord) (u : VariableRecord) :
    Option (List VariableRecord) :=
  if rows.any (fun r => r.id == u.id) then
    some (rows.map (fun r =>
      if r.id == u.id then
        { r with keyEncrypted := u.keyEncrypted, valueEncrypted := u.valueEncrypted,
                 ivKey := u.ivKey, ivValue := u.ivValue }
      else r))
  else none

/-- One statement inside the `db.$transaction` callback of the rotation
route. -/
inductive TxOp where
  | updateUser (newHashedPassword : String) (newSalt : String)
  | updateVariable (u : VariableRecord)
  | updateGlobalVariable (u : VariableRecord)

/-- Effect of a single transaction statement on the stored state; `none`
signals the statement threw (row not found). -/
def applyTxOp (st : RotationState) : TxOp → Option RotationState
  | .updateUser h s => some { st with masterPassword := some h, encryptionSalt := s }
  | .updateVariable u =>
    (updateVariableRecord st.vars u).map (fun vs => { st with vars := vs })
  | .updateGlobalVariable u =>
    (updateVariableRecord st.globalVariables u).map (fun vs => { st with globalVariables := vs })

/-- Run the statements of an interactive `db.$transaction` under a simulated
fault: `fault = some k` makes the connection die right before the `k`-th
remaining statement runs. The database guarantee is that a transaction that
throws or dies before completing is rolled back wholesale, so the caller
observes `none` and the pre-transaction state survives. -/
def runTx (st : RotationState) : List TxOp → Option Nat → Option RotationState
  | [], _ => some st
  | _ :: _, some 0 => none
  | op :: ops, fault =>
    (applyTxOp st op).bind (fun st2 => runTx st2 ops (fault.map (fun k => k - 1)))

/-- The statement list of the rotation route's transaction: the user-row
update (new password hash, new salt), then one update per request variable,
then one per request global variable. -/
def txOps (body : ChangePasswordRequest) (newHashedPassword : String) : List TxOp :=
  TxOp.updateUser newHashedPassword body.newSalt
    :: (body.vars.map TxOp.updateVariable
        ++ body.globalVariables.map TxOp.updateGlobalVariable)

namespace ChangeMasterPasswordRoute

/-- `POST` of src/unnamed/part_008, from the body parse onward. `bcompare`
and `bhash` stand for bcryptjs `compare` and `hash`; `fault` injects a
connection fault into the transaction as described at `runTx`. -/
def POST (bcompare : String → String → Bool) (bhash : String → Nat → String)
    (st : RotationState) (body : ChangePasswordRequest) (fault : Option Nat) :
    RotationState × RotationResponse :=
  match st.masterPassword with
  | none => (st, .error 400 "User not found or master password not set")
  | some masterPassword =>
    if bcompare body.currentPasswordHash masterPassword = false then
      (st, .error 401 "Current password is incorrect")
    else
      let newHashedPassword := bhash body.newMasterPasswordHash 12
      match runTx st (txOps body newHashedPassword) fault with
      | some st2 => (st2, .success "Master password changed successfully" body.newSalt)
      | none => (st, .error 500 "Failed to change master password")

end ChangeMasterPasswordRoute

/-! ## Instrumentation and auxiliary semantics used by the statements -/

/-- Cost instrumentation of the `verifyBackupCode` loop: the number of
bcrypt `compare` invocations the loop performs before returning. -/
def verifyLoopCalls (compare : String → String → Bool) (normalizedCode : String) :
    List String → Nat
  | [] => 0
  | h :: hs =>
    if compare normalizedCode h then 1 else 1 + verifyLoopCalls compare normalizedCode hs

/-- Number of bcrypt `compare` invocations performed by a `verifyBackupCode`
call. -/
def verifyBackupCodeCalls (compare : String → String → Bool) (code : String)
    (hashedCodes : List String) : Nat :=
  verifyLoopCalls compare (normalizeCode code) hashedCodes

/-- Faultless execution of a transaction statement list (what `runTx`
computes when no fault strikes). -/
def applyAll : RotationState → List TxOp → Option RotationState
  | st, [] => some st
  | st, op :: ops => (applyTxOp st op).bind (fun st2 => applyAll st2 ops)

/-- Sequential application of Prisma row updates to one table's rows. -/
def applyRecordUpdates : List VariableRecord → List VariableRecord → Option (List VariableRecord)
  | rows, [] => some rows
  | rows, u :: us => (updateVariableRecord rows u).bind (fun rows2 => applyRecordUpdates rows2 us)

/-- Row `r` carries the re-encrypted payload of request entry `u`. -/
def recordCarries (r u : VariableRecord) : Prop :=
  r.id = u.id ∧ r.keyEncrypted = u.keyEncrypted ∧ r.valueEncrypted = u.valueEncrypted ∧
    r.ivKey = u.ivKey ∧ r.ivValue = u.ivValue

/-- The fully-rotated outcome: the user row carries the new salt and new
password hash, and every variable and global variable of the request is
stored with its new ciphertexts and IVs. -/
def rotationApplied (st2 : RotationState) (body : ChangePasswordRequest)
    (newHash : String) : Prop :=
  st2.encryptionSalt = body.newSalt ∧ st2.masterPassword = some newHash ∧
    (∀ u ∈ body.vars, ∃ r ∈ st2.vars, recordCarries r u) ∧
    (∀ u ∈ body.globalVariables, ∃ r ∈ st2.globalVariables, recordCarries r u)

/-! ## TOTP verification (src/lib/totp.ts delegates to the external otplib
library; the scheme itself is modelled from the spec) -/

/-- 32-bit left rotation of a word. -/
def rotl32 (n x : Nat) : Nat := ((x <<< n) ||| (x >>> (32 - n))) % (2 ^ 32)

/-- Modelled from the spec: SHA-1 message padding (the spec prescribes an
HMAC-SHA1-based scheme; otplib, which implements it, is not part of the
repository source). Appends the 0x80 marker, zero padding, and the 64-bit
big-endian bit length, reaching a multiple of 64 bytes. -/
def sha1Pad (msg : List Nat) : List Nat :=
  let len := msg.length
  let zeros := (119 - len % 64) % 64
  msg ++ 0x80 :: (List.replicate zeros 0
    ++ (List.range 8).map (fun i => ((len * 8) >>> (8 * (7 - i))) % 256))

/-- Big-endian grouping of bytes into 32-bit words. -/
def bytesToWords : List Nat → List Nat
  | b0 :: b1 :: b2 :: b3 :: rest => (((b0 * 256 + b1) * 256 + b2) * 256 + b3) :: bytesToWords rest
  | _ => []

/-- SHA-1 message-schedule extension: prepend `n` more words to the
reversed accumulator, each the 1-rotation of the xor of the words 3, 8, 14
and 16 positions back. -/
def sha1Extend : Nat → List Nat → List Nat
  | 0, acc => acc.reverse
  | n + 1, acc =>
    sha1Extend n ((rotl32 1 (acc.getD 2 0 ^^^ acc.getD 7 0 ^^^ acc.getD 13 0 ^^^ acc.getD 15 0))
      :: acc)

/-- One SHA-1 round: round-dependent boolean function and constant,
rotation and state shift. -/
def sha1Round (i : Nat) (st : Nat × Nat × Nat × Nat × Nat) (w : Nat) :
    Nat × Nat × Nat × Nat × Nat :=
  let (a, b, c, d, e) := st
  let f :=
    if i < 20 then (b &&& c) ||| ((b ^^^ 0xffffffff) &&& d)
    else if i < 40 then b ^^^ c ^^^ d
    else if i < 60 then (b &&& c) ||| (b &&& d) ||| (c &&& d)
    else b ^^^ c ^^^ d
  let k :=
    if i < 20 then 0x5a827999
    else if i < 40 then 0x6ed9eba1
    else if i < 60 then 0x8f1bbcdc
    else 0xca62c1d6
  let temp := (rotl32 5 a + f + e + k + w) % (2 ^ 32)
  (temp, a, rotl32 30 b, c, d)

/-- SHA-1 compression of one 64-byte block into the running state. -/
def sha1Block (h : Nat × Nat × Nat × Nat × Nat) (block : List Nat) :
    Nat × Nat × Nat × Nat × Nat :=
  let w := sha1Extend 64 (bytesToWords block).reverse
  let (h0, h1, h2, h3, h4) := h
  let (a, b, c, d, e) := w.enum.foldl (fun st iw => sha1Round iw.1 st iw.2) (h0, h1, h2, h3, h4)
  ((h0 + a) % 2 ^ 32, (h1 + b) % 2 ^ 32, (h2 + c) % 2 ^ 32, (h3 + d) % 2 ^ 32,
    (h4 + e) % 2 ^ 32)

/-- Fold the SHA-1 compression over `n` consecutive 64-byte blocks. -/
def sha1Blocks : Nat × Nat × Nat × Nat × Nat → Nat → List Nat → Nat × Nat × Nat × Nat × Nat
  | h, 0, _ => h
  | h, n + 1, bytes => sha1Blocks (sha1Block h (bytes.take 64)) n (bytes.drop 64)

/-- SHA-1 of a byte sequence (FIPS 180 reference constants), 20 bytes out. -/
def sha1 (msg : List Nat) : List Nat :=
  let padded := sha1Pad msg
  let h := sha1Blocks (0x67452301, 0xefcdab89, 0x98badcfe, 0x10325476, 0xc3d2e1f0)
    (padded.length / 64) padded
  [h.1, h.2.1, h.2.2.1, h.2.2.2.1, h.2.2.2.2].flatMap
    (fun w => (List.range 4).map (fun i => (w >>> (8 * (3 - i))) % 256))

/-- HMAC-SHA1 per RFC 2104: key padded to the 64-byte block size, inner and
outer hashes with the 0x36/0x5c pads. -/
def hmacSha1 (key msg : List Nat) : List Nat :=
  let key1 := if 64 < key.length then sha1 key else key
  let key2 := key1 ++ List.replicate (64 - key1.length) 0
  let ipadKey := key2.map (fun b => b ^^^ 0x36)
  let opadKey := key2.map (fun b => b ^^^ 0x5c)
  sha1 (opadKey ++ sha1 (ipadKey ++ msg))

/-- RFC 4648 base32 alphabet, the encoding of TOTP seeds. -/
def base32Alphabet : List Char := "ABCDEFGHIJKLMNOPQRSTUVWXYZ234567".data

/-- Index of a character in the base32 alphabet. -/
def b32Val (c : Char) : Nat := base32Alphabet.findIdx (fun x => x == c)

/-- Bit-accumulating base32 decoder: 5 bits per character, emitting a byte
whenever 8 bits are available. -/
def base32DecodeAux : List Char → Nat → Nat → List Nat
  | [], _, _ => []
  | c :: cs, acc, bits =>
    let acc2 := acc * 32 + b32Val c
    let bits2 := bits + 5
    if 8 ≤ bits2 then
      ((acc2 >>> (bits2 - 8)) % 256) :: base32DecodeAux cs (acc2 % 2 ^ (bits2 - 8)) (bits2 - 8)
    else
      base32DecodeAux cs acc2 bits2

/-- Modelled from the spec: decode the base32 TOTP seed into key bytes. -/
def base32Decode (s : String) : List Nat :=
  base32DecodeAux (s.data.filter (fun c => c != '=')) 0 0

/-- Modelled from the spec: HOTP (RFC 4226) — HMAC-SHA1 of the 8-byte
big-endian counter, dynamic truncation, reduced to 6 decimal digits. -/
def hotp (key : List Nat) (counter : Nat) : Nat :=
  let cbytes := (List.range 8).map (fun i => (counter >>> (8 * (7 - i))) % 256)
  let mac := hmacSha1 key cbytes
  let offset := mac.getD 19 0 &&& 15
  let bin := ((mac.getD offset 0 &&& 0x7f) <<< 24) ||| (mac.getD (offset + 1) 0 <<< 16)
    ||| (mac.getD (offset + 2) 0 <<< 8) ||| mac.getD (offset + 3) 0
  bin % 1000000

/-- The 6-digit TOTP token for a base32 seed at a given 30-second counter
step, zero-padded to six characters. -/
def totpToken (secret : String) (counter : Nat) : String :=
  String.mk ((List.range 6).map
    (fun i => Char.ofNat (48 + hotp (base32Decode secret) counter / 10 ^ (5 - i) % 10)))

/-- Modelled from the spec: the code the authenticator generates from a
seed at Unix time `time` — the token of the current 30-second step. -/
def generateTOTPCode (secret : String) (time : Nat) : String :=
  totpToken secret (time / 30)

/-- Modelled from the spec: `verifyTOTPCode` of src/lib/totp.ts delegates
to otplib `verify` with `epochTolerance: 30`, i.e. a 6-digit HMAC-SHA1 code
over 30-second steps accepting the current step and one step before and
after. -/
def verifyTOTPCode (token : String) (secret : String) (time : Nat) : Bool :=
  let c := time / 30
  token == totpToken secret (c - 1) || token == totpToken secret c
    || token == totpToken secret (c + 1)

/-! ## AeadCipher (spec §4.2). The repository's lib/crypto/encryption.ts is
not under src (only its callers are); the AES-256-GCM field cipher the spec
prescribes is modelled here in full, byte-exact with the Web Crypto
implementation the callers use. -/

/-- 8-bit left rotation of a byte. -/
def rotl8 (n x : Nat) : Nat := ((x <<< n) ||| (x >>> (8 - n))) % 256

/-- Multiplication by x in GF(2^8) with the AES reduction polynomial. -/
def xtime (b : Nat) : Nat := ((b <<< 1) ^^^ (if b &&& 0x80 = 0 then 0 else 0x1b)) &&& 0xff

/-- Shift-and-add loop of GF(2^8) multiplication, `n` bits remaining. -/
def gmulAux : Nat → Nat → Nat → Nat → Nat
  | 0, _, _, p => p
  | n + 1, a, b, p => gmulAux n (xtime a) (b >>> 1) (if b &&& 1 = 1 then p ^^^ a else p)

/-- GF(2^8) multiplication. -/
def gmul (a b : Nat) : Nat := gmulAux 8 a b 0

/-- GF(2^8) multiplicative inverse via a = a^254 (0 maps to 0). -/
def ginv (a : Nat) : Nat :=
  let a2 := gmul a a
  let a4 := gmul a2 a2
  let a8 := gmul a4 a4
  let a16 := gmul a8 a8
  let a32 := gmul a16 a16
  let a64 := gmul a32 a32
  let a128 := gmul a64 a64
  gmul a128 (gmul a64 (gmul a32 (gmul a16 (gmul a8 (gmul a4 a2)))))

/-- The AES S-box, computed as the affine transform of the field inverse
(FIPS 197 §5.1.1) rather than transcribed as a table. -/
def sbox (b : Nat) : Nat :=
  let x := ginv (b % 256)
  x ^^^ rotl8 1 x ^^^ rotl8 2 x ^^^ rotl8 3 x ^^^ rotl8 4 x ^^^ 0x63

/-- Apply the S-box to each byte of a 32-bit word. -/
def subWord (w : Nat) : Nat :=
  (sbox ((w >>> 24) % 256) <<< 24) ||| (sbox ((w >>> 16) % 256) <<< 16)
    ||| (sbox ((w >>> 8) % 256) <<< 8) ||| sbox (w % 256)

/-- Byte rotation of a 32-bit word used by the key schedule. -/
def rotWord (w : Nat) : Nat := ((w <<< 8) ||| (w >>> 24)) % 2 ^ 32

/-- AES round constants: for AES-256 only indices 1–7 arise, all below the
field reduction threshold. -/
def rconVal (j : Nat) : Nat := 1 <<< (j - 1)

/-- AES-256 key-schedule loop (FIPS 197 §5.2), `n` words still to produce,
`i` the index of the next word, accumulator reversed. -/
def keyExpansionAux : Nat → Nat → List Nat → List Nat
  | 0, _, acc => acc.reverse
  | n + 1, i, acc =>
    let wPrev := acc.getD 0 0
    let w8 := acc.getD 7 0
    let temp :=
      if i % 8 = 0 then subWord (rotWord wPrev) ^^^ (rconVal (i / 8) <<< 24)
      else if i % 8 = 4 then subWord wPrev
      else wPrev
    keyExpansionAux n (i + 1) ((w8 ^^^ temp) :: acc)

/-- AES-256 key expansion: 60 round-key words from a 32-byte key (shorter
or overlong inputs are normalized to 32 bytes). -/
def keyExpansion (key : List Nat) : List Nat :=
  let keyBytes := (key.map (fun b => b % 256) ++ List.replicate 32 0).take 32
  keyExpansionAux 52 8 (bytesToWords keyBytes).reverse

/-- The 16 bytes of round key `r`, big-endian within each word. -/
def roundKeyBytes (words : List Nat) (r : Nat) : List Nat :=
  (List.range 16).map (fun i => (words.getD (4 * r + i / 4) 0 >>> (8 * (3 - i % 4))) % 256)

/-- SubBytes on the 16-byte state. -/
def subBytes (s : List Nat) : List Nat := s.map sbox

/-- ShiftRows on the 16-byte state in column-major byte order. -/
def shiftRows (s : List Nat) : List Nat :=
  [s.getD 0 0, s.getD 5 0, s.getD 10 0, s.getD 15 0,
   s.getD 4 0, s.getD 9 0, s.getD 14 0, s.getD 3 0,
   s.getD 8 0, s.getD 13 0, s.getD 2 0, s.getD 7 0,
   s.getD 12 0, s.getD 1 0, s.getD 6 0, s.getD 11 0]

/-- MixColumns on one column. -/
def mixColumn (s0 s1 s2 s3 : Nat) : List Nat :=
  [gmul 2 s0 ^^^ gmul 3 s1 ^^^ s2 ^^^ s3,
   s0 ^^^ gmul 2 s1 ^^^ gmul 3 s2 ^^^ s3,
   s0 ^^^ s1 ^^^ gmul 2 s2 ^^^ gmul 3 s3,
   gmul 3 s0 ^^^ s1 ^^^ s2 ^^^ gmul 2 s3]

/-- MixColumns on the 16-byte state. -/
def mixColumns (s : List Nat) : List Nat :=
  (List.range 4).flatMap (fun c =>
    mixColumn (s.getD (4 * c) 0) (s.getD (4 * c + 1) 0) (s.getD (4 * c + 2) 0)
      (s.getD (4 * c + 3) 0))

/-- AddRoundKey: bytewise xor of state and round key. -/
def addRoundKey (s rk : List Nat) : List Nat := List.zipWith (fun a b => a ^^^ b) s rk

/-- AES-256 single-block encryption (14 rounds, FIPS 197 §5.1). -/
def aesEncryptBlock (key : List Nat) (input : List Nat) : List Nat :=
  let w := keyExpansion key
  let st0 := addRoundKey (input.map (fun b => b % 256)) (roundKeyBytes w 0)
  let stn := (List.range 13).foldl
    (fun st r => addRoundKey (mixColumns (shiftRows (subBytes st))) (roundKeyBytes w (r + 1)))
    st0
  addRoundKey (shiftRows (subBytes stn)) (roundKeyBytes w 14)

/-- GCM counter block for a 96-bit IV: the 12 IV bytes followed by the
32-bit big-endian counter. -/
def counterBlock (iv : List Nat) (ctr : Nat) : List Nat :=
  (iv.map (fun b => b % 256) ++ List.replicate 12 0).take 12
    ++ (List.range 4).map (fun i => (ctr >>> (8 * (3 - i))) % 256)

/-- Byte `i` of the GCM CTR keystream (message counters start at 2; counter
1 is reserved for the tag mask). -/
def gcmKeystreamByte (key iv : List Nat) (i : Nat) : Nat :=
  (aesEncryptBlock key (counterBlock iv (2 + i / 16))).getD (i % 16) 0

/-- GCM CTR-mode transform: xor the data with the keystream byte by byte.
Encryption and decryption are this same operation. -/
def gcmCtr (key iv data : List Nat) : List Nat :=
  List.zipWith (fun b i => b ^^^ gcmKeystreamByte key iv i) data (List.range data.length)

/-- The `j`-th 16-byte block of a byte sequence as a big-endian 128-bit
number, zero-padded at the tail. -/
def bytesToBlock (bytes : List Nat) (j : Nat) : Nat :=
  (List.range 16).foldl (fun acc k => acc * 256 + bytes.getD (16 * j + k) 0) 0

/-- GF(2^128) multiplication loop of GHASH (NIST SP 800-38D §6.3), `n` bits
of `x` remaining, `v` the running multiplicand, `z` the accumulator. -/
def gmul128Aux : Nat → Nat → Nat → Nat → Nat
  | 0, _, _, z => z
  | n + 1, x, v, z =>
    let z2 := if (x >>> 127) &&& 1 = 1 then z ^^^ v else z
    let v2 := if v &&& 1 = 1 then (v >>> 1) ^^^ (0xe1 <<< 120) else v >>> 1
    gmul128Aux n ((x <<< 1) % 2 ^ 128) v2 z2

/-- GF(2^128) multiplication in GCM's reflected representation. -/
def gmul128 (x y : Nat) : Nat := gmul128Aux 128 x y 0

/-- GHASH over a list of 128-bit blocks with hash subkey `h`. -/
def ghash (h : Nat) (blocks : List Nat) : Nat :=
  blocks.foldl (fun y b => gmul128 (y ^^^ b) h) 0

/-- The 128-bit GCM authentication tag over a ciphertext body with no
associated data: GHASH of the ciphertext blocks and the length block,
masked with the encryption of counter block 1. -/
def gcmTag (key iv cipherBody : List Nat) : Nat :=
  let h := bytesToBlock (aesEncryptBlock key (List.replicate 16 0)) 0
  let m := (cipherBody.length + 15) / 16
  let cblocks := (List.range m).map (fun j => bytesToBlock cipherBody j)
  let lenBlock := (cipherBody.length * 8) % 2 ^ 64
  let s := ghash h (cblocks ++ [lenBlock])
  (s ^^^ bytesToBlock (aesEncryptBlock key (counterBlock iv 1)) 0) % 2 ^ 128

/-- Big-endian bytes of a 128-bit number. -/
def natToBytes16 (x : Nat) : List Nat :=
  (List.range 16).map (fun i => (x >>> (8 * (15 - i))) % 256)

/-- Modelled from the spec: EncryptedField — ciphertext bytes and the
96-bit IV; following Web Crypto AES-GCM the 16-byte authentication tag is
appended to the ciphertext. -/
structure EncryptedField where
  ciphertext : List Nat
  iv : List Nat
deriving DecidableEq

/-- Modelled from the spec: `encryptField(plaintext, key)` of the missing
lib/crypto/encryption.ts — AES-256-GCM with a per-call random 96-bit IV,
here an explicit argument standing for the platform randomness. -/
def encryptField (plaintext key iv : List Nat) : EncryptedField :=
  let body := gcmCtr key iv plaintext
  { ciphertext := body ++ natToBytes16 (gcmTag key iv body), iv := iv }

/-- Modelled from the spec: `decryptField(field, key)` — recompute the GCM
tag over the ciphertext body and fail (`none`, the spec's
`IntegrityFailure`) unless it matches the stored tag; on success return the
CTR-decrypted plaintext. -/
def decryptField (f : EncryptedField) (key : List Nat) : Option (List Nat) :=
  if f.ciphertext.length < 16 then none
  else
    let body := f.ciphertext.take (f.ciphertext.length - 16)
    let tag := f.ciphertext.drop (f.ciphertext.length - 16)
    if tag = natToBytes16 (gcmTag key f.iv body) then some (gcmCtr key f.iv body)
    else none

/-! ## Theorems -/

/-- Normalization absorbs display formatting: stripping dashes and
uppercasing gives the same result on `formatBackupCode code` as on `code`. -/
theorem normalizeCode_format (code : String) :
    normalizeCode (formatBackupCode code) = normalizeCode code := by
  unfold normalizeCode formatBackupCode
  apply congrArg String.mk
  apply congrArg (List.map Char.toUpper)
  have hdata : (String.mk (code.data.take 4 ++ '-' :: code.data.drop 4)).data
      = code.data.take 4 ++ '-' :: code.data.drop 4 := rfl
  rw [hdata, List.filter_append, List.filter_cons]
  simp only [bne_self_eq_false, Bool.false_eq_true, if_false]
  rw [← List.filter_append, List.take_append_drop]

/-- C9: backup-code verification is presentation-invariant — verifying the
dash-formatted rendering of a code returns the same index as verifying the
raw code, because both are normalized (dashes stripped, uppercased) before
comparison. -/
theorem verifyBackupCode_format_invariant (compare : String → String → Bool)
    (code : String) (hashedCodes : List String) :
    verifyBackupCode compare (formatBackupCode code) hashedCodes
      = verifyBackupCode compare code hashedCodes := by
  unfold verifyBackupCode
  rw [normalizeCode_format]

/-- When the removed index lies strictly outside every index of the list,
the indexed filter keeps everything. -/
theorem filterWithIdx_keep_all (j : Int) :
    ∀ (xs : List String) (s : Nat),
      (∀ k : Nat, s ≤ k → k < s + xs.length → (k : Int) ≠ j) →
      filterWithIdx (fun i => (i : Int) != j) xs s = xs := by
  intro xs
  induction xs with
  | nil => intro s _; rfl
  | cons x xs ih =>
    intro s h
    have hs : (((s : Nat) : Int) != j) = true := by
      have hne := h s le_rfl (by simp only [List.length_cons]; omega)
      simpa using hne
    simp only [filterWithIdx, hs, if_true]
    rw [ih (s + 1) (fun k hk1 hk2 => h k (by omega) (by simp [List.length_cons] at hk2 ⊢; omega))]

/-- Removing index `s + k` from a list whose indexing starts at `s` deletes
exactly the element at position `k`. -/
theorem filterWithIdx_erase :
    ∀ (xs : List String) (k s : Nat), k < xs.length →
      filterWithIdx (fun i => (i : Int) != ((s + k : Nat) : Int)) xs s
        = xs.take k ++ xs.drop (k + 1) := by
  intro xs
  induction xs with
  | nil => intro k s h; simp at h
  | cons x xs ih =>
    intro k s hk
    cases k with
    | zero =>
      have hcond : (((s : Nat) : Int) != ((s + 0 : Nat) : Int)) = false := by simp
      simp only [filterWithIdx, hcond, if_false, Bool.false_eq_true]
      rw [filterWithIdx_keep_all _ xs (s + 1) (fun k hk1 hk2 => by
        intro he
        omega)]
      simp
    | succ k =>
      have hcond : (((s : Nat) : Int) != ((s + (k + 1) : Nat) : Int)) = true := by
        simp; omega
      simp only [filterWithIdx, hcond, if_true]
      have harith : s + (k + 1) = (s + 1) + k := by omega
      rw [harith, ih k (s + 1) (by simpa using Nat.lt_of_succ_lt_succ hk)]
      simp

/-- C10: `removeBackupCode` deletes exactly the element at an in-range
index, preserving the order of the rest, and returns the list unchanged at
every out-of-range index (in particular the `-1` not-found sentinel). -/
theorem removeBackupCode_spec :
    (∀ (L : List String) (k : Nat), k < L.length →
        removeBackupCode L ((k : Nat) : Int) = L.take k ++ L.drop (k + 1)) ∧
    (∀ (L : List String) (j : Int), j < 0 ∨ ((L.length : Nat) : Int) ≤ j →
        removeBackupCode L j = L) := by
  constructor
  · intro L k hk
    have h := filterWithIdx_erase L k 0 hk
    simpa using h
  · intro L j hj
    apply filterWithIdx_keep_all
    intro k hk1 hk2
    intro he
    rcases hj with hj | hj
    · omega
    · have hkL : (k : Int) < ((L.length : Nat) : Int) := by
        simp at hk2
        exact_mod_cast hk2
      omega

/-- Witness for C10 at a concrete list: removing index 1 deletes exactly
the middle element; removing index `-1` removes nothing. -/
theorem removeBackupCode_spec_witness :
    removeBackupCode ["a", "b", "c"] ((1 : Nat) : Int) = ["a", "c"] ∧
    removeBackupCode ["a", "b", "c"] (-1) = ["a", "b", "c"] := by
  constructor
  · exact (removeBackupCode_spec.1 ["a", "b", "c"] 1 (by decide)).trans rfl
  · exact removeBackupCode_spec.2 ["a", "b", "c"] (-1) (Or.inl (by decide))

/-- Structure of the `verifyBackupCode` loop starting at index `s`: either
no stored hash matches — the result is `-1` and every hash was compared —
or the loop returns the index of the first match, having compared exactly
the hashes up to and including it. -/
theorem verifyLoop_spec (c : String → String → Bool) (n : String) :
    ∀ (L : List String) (s : Nat),
      (verifyLoop c n L s = -1 ∧ (∀ h ∈ L, c n h = false) ∧
        verifyLoopCalls c n L = L.length)
      ∨ (∃ k, k < L.length ∧ verifyLoop c n L s = ((s + k : Nat) : Int) ∧
          c n (L.getD k "") = true ∧ (∀ j, j < k → c n (L.getD j "") = false) ∧
          verifyLoopCalls c n L = k + 1) := by
  intro L
  induction L with
  | nil => intro s; left; exact ⟨rfl, by simp, rfl⟩
  | cons h hs ih =>
    intro s
    by_cases hc : c n h = true
    · right
      refine ⟨0, by simp, ?_, by simpa using hc, by intro j hj; omega, ?_⟩
      · simp [verifyLoop, hc]
      · simp [verifyLoopCalls, hc]
    · have hcf : c n h = false := by simpa using hc
      rcases ih (s + 1) with ⟨h1, h2, h3⟩ | ⟨k, hk, hr, hm, hprev, hcalls⟩
      · left
        refine ⟨by simp [verifyLoop, hcf, h1], ?_, ?_⟩
        · intro x hx
          rcases List.mem_cons.mp hx with rfl | hx
          · exact hcf
          · exact h2 x hx
        · simp [verifyLoopCalls, hcf, h3, List.length_cons]
          omega
      · right
        refine ⟨k + 1, by simpa using Nat.succ_lt_succ hk, ?_, by simpa using hm, ?_, ?_⟩
        · have harith : (s + 1) + k = s + (k + 1) := by omega
          simp only [verifyLoop, hcf, Bool.false_eq_true, if_false]
          rw [← harith]
          exact hr
        · intro j hj
          cases j with
          | zero => simpa using hcf
          | succ j => simpa using hprev j (by omega)
        · simp [verifyLoopCalls, hcf, hcalls]
          omega

/-- C7 counterexample: the verification loop returns at the first matching
hash, so it does not compare the candidate against every stored hash — with
a comparator that matches the first of two hashes, only one comparison is
performed. -/
theorem backup_verify_not_whole_list_cex :
    ¬ (∀ (compare : String → String → Bool) (code : String) (hashedCodes : List String),
        verifyBackupCodeCalls compare code hashedCodes = hashedCodes.length) := by
  intro hall
  have h := hall (fun _ _ => true) "C" ["h1", "h2"]
  exact absurd h (by decide)

/-- C7 amended: verification performs one bcrypt comparison per stored hash
up to and including the first match, early-exiting there; only when no
stored hash matches (result `-1`) is the candidate compared against every
stored hash. -/
theorem backup_verify_call_count (compare : String → String → Bool) (code : String)
    (hashedCodes : List String) :
    (verifyBackupCode compare code hashedCodes = -1 →
        verifyBackupCodeCalls compare code hashedCodes = hashedCodes.length) ∧
    (∀ k : Nat, verifyBackupCode compare code hashedCodes = ((k : Nat) : Int) →
        verifyBackupCodeCalls compare code hashedCodes = k + 1) := by
  rcases verifyLoop_spec compare (normalizeCode code) hashedCodes 0 with
    ⟨h1, _, h3⟩ | ⟨k, _, hr, _, _, hcalls⟩
  · constructor
    · intro _; exact h3
    · intro k2 hk2
      unfold verifyBackupCode at hk2
      rw [h1] at hk2
      omega
  · constructor
    · intro hneg
      unfold verifyBackupCode at hneg
      rw [hr] at hneg
      omega
    · intro k2 hk2
      unfold verifyBackupCode at hk2
      rw [hr] at hk2
      have hkk : k = k2 := by omega
      rw [← hkk]
      exact hcalls

/-- Witness for C7's amended theorem: with a comparator matching exactly
the hash at index 1 of three, two comparisons happen; with no match over
two hashes, both are compared. -/
theorem backup_verify_call_count_witness :
    verifyBackupCodeCalls (fun _ h => h == "HIT") "x" ["MISS", "HIT", "LAST"] = 2 ∧
    verifyBackupCodeCalls (fun _ h => h == "HIT") "x" ["MISS", "MISS2"] = 2 := by
  constructor
  · exact (backup_verify_call_count (fun _ h => h == "HIT") "x"
      ["MISS", "HIT", "LAST"]).2 1 (by decide)
  · exact (backup_verify_call_count (fun _ h => h == "HIT") "x" ["MISS", "MISS2"]).1 (by decide)

/-- C8: `generateBackupCodes` returns exactly `count` codes for every
count, and 8 when the count is left to its default; every generated code is
an 8-character alphanumeric string; and `hashBackupCode` produces only a
bcrypt hash at cost factor `SALT_ROUNDS = 10`, which meets the cost ≥ 10
requirement. -/
theorem generateBackupCodes_spec (rand : Nat → Nat → Nat) (bhash : String → Nat → String) :
    (∀ count : Nat, (generateBackupCodes rand count).length = count) ∧
    (generateBackupCodes rand).length = 8 ∧
    (∀ count : Nat, ∀ c ∈ generateBackupCodes rand count,
        c.length = 8 ∧ ∀ ch ∈ c.data, ch.isAlphanum = true) ∧
    (∀ code : String,
        hashBackupCode bhash code = bhash (normalizeCode code) 10 ∧ 10 ≤ SALT_ROUNDS) := by
  have hlen2 : ∀ b : Nat, (byteToHexPadded b).length = 2 := fun b => rfl
  have key : ∀ n : Nat, n < 16 → ((hexCharsLower.getD n '0').toUpper).isAlphanum = true := by
    decide
  refine ⟨?_, ?_, ?_, ?_⟩
  · intro count; simp [generateBackupCodes]
  · simp [generateBackupCodes]
  · intro count c hc
    rw [generateBackupCodes, List.mem_map] at hc
    obtain ⟨i, _, rfl⟩ := hc
    constructor
    · show (List.map Char.toUpper _).length = 8
      rw [List.length_map, List.length_flatMap, List.map_map]
      simp only [Function.comp_def, hlen2]
      simp [List.map_const']
    · intro ch hch
      have hch2 : ch ∈ (((List.range 4).map (fun j => rand i j % 256)).flatMap
          byteToHexPadded).map Char.toUpper := hch
      rw [List.mem_map] at hch2
      obtain ⟨x, hx, rfl⟩ := hch2
      rw [List.mem_flatMap] at hx
      obtain ⟨b, hb, hxb⟩ := hx
      rw [List.mem_map] at hb
      obtain ⟨j, _, rfl⟩ := hb
      have hxb2 : x = hexCharsLower.getD (rand i j % 256 / 16 % 16) '0'
          ∨ x = hexCharsLower.getD (rand i j % 256 % 16) '0' := by
        simpa [byteToHexPadded] using hxb
      rcases hxb2 with rfl | rfl
      · exact key _ (Nat.mod_lt _ (by omega))
      · exact key _ (Nat.mod_lt _ (by omega))
  · intro code; exact ⟨rfl, le_refl _⟩

/-- Witness for C8: a concrete RNG stream yields the single code
`"00010203"`, which is 8 characters of alphanumerics. -/
theorem generateBackupCodes_spec_witness :
    ("00010203" ∈ generateBackupCodes (fun i j => i * 4 + j) 1) ∧
    (String.length "00010203" = 8 ∧ ∀ ch ∈ ("00010203" : String).data, ch.isAlphanum = true) := by
  have hmem : "00010203" ∈ generateBackupCodes (fun i j => i * 4 + j) 1 := by decide
  exact ⟨hmem,
    (generateBackupCodes_spec (fun i j => i * 4 + j) (fun s _ => s)).2.2.1 1 _ hmem⟩

/-- C6 counterexample: a successful 2FA disable clears the TOTP secret but
does not clear the stored backup-code hash list — after the update the list
still holds its old hash, refuting the claim that the whole credential is
destroyed. -/
theorem disable_keeps_backup_codes_cex :
    (TwoFactorDisableRoute.POST (fun _ _ => true)
        ⟨some "ph", true, some "SEED", ["h1"]⟩ "pw").2
      = .success "Two-factor authentication disabled" ∧
    (TwoFactorDisableRoute.POST (fun _ _ => true)
        ⟨some "ph", true, some "SEED", ["h1"]⟩ "pw").1.twoFactorBackupCodes
      = ["h1"] := by
  constructor <;> rfl

/-- C6 amended: a successful 2FA disable request sets `twoFactorEnabled` to
false and clears the stored TOTP seed, but leaves the stored backup-code
hash list (and the account password) unchanged. -/
theorem disable_clears_seed_keeps_backup_codes (compare : String → String → Bool)
    (u : DisableUser) (password stored : String) (hpw : password ≠ "")
    (hstored : u.password = some stored) (hen : u.twoFactorEnabled = true)
    (hcmp : compare password stored = true) :
    (TwoFactorDisableRoute.POST compare u password).2
      = .success "Two-factor authentication disabled" ∧
    (TwoFactorDisableRoute.POST compare u password).1.twoFactorEnabled = false ∧
    (TwoFactorDisableRoute.POST compare u password).1.twoFactorSecret = none ∧
    (TwoFactorDisableRoute.POST compare u password).1.twoFactorBackupCodes
      = u.twoFactorBackupCodes ∧
    (TwoFactorDisableRoute.POST compare u password).1.password = u.password := by
  unfold TwoFactorDisableRoute.POST
  rw [if_neg hpw, hstored]
  simp [hen, hcmp]

/-- Witness for C6's amended theorem at a concrete user row. -/
theorem disable_clears_seed_keeps_backup_codes_witness :
    (TwoFactorDisableRoute.POST (fun p h => p == "pw" && h == "ph")
        ⟨some "ph", true, some "SEED", ["h1", "h2"]⟩ "pw").1.twoFactorSecret = none ∧
    (TwoFactorDisableRoute.POST (fun p h => p == "pw" && h == "ph")
        ⟨some "ph", true, some "SEED", ["h1", "h2"]⟩ "pw").1.twoFactorBackupCodes
      = ["h1", "h2"] := by
  have h := disable_clears_seed_keeps_backup_codes (fun p h => p == "pw" && h == "ph")
    ⟨some "ph", true, some "SEED", ["h1", "h2"]⟩ "pw" "ph" (by decide) rfl rfl (by decide)
  exact ⟨h.2.2.1, h.2.2.2.1⟩

/-- C2: when bcrypt rejects the supplied current master password, the
rotation route answers 401 "Current password is incorrect" and returns with
the stored state — salt, master-password hash, variables and global
variables — exactly as it was, for every fault scenario. -/
theorem rotation_wrong_password_aborts (bcompare : String → String → Bool)
    (bhash : String → Nat → String) (st : RotationState) (body : ChangePasswordRequest)
    (fault : Option Nat) (mp : String) (hmp : st.masterPassword = some mp)
    (hfail : bcompare body.currentPasswordHash mp = false) :
    ChangeMasterPasswordRoute.POST bcompare bhash st body fault
      = (st, .error 401 "Current password is incorrect") := by
  unfold ChangeMasterPasswordRoute.POST
  rw [hmp]
  simp [hfail]

/-- Witness for C2 at a concrete state and request. -/
theorem rotation_wrong_password_aborts_witness :
    ChangeMasterPasswordRoute.POST (fun _ _ => false) (fun s _ => s)
        ⟨some "mp", "salt0", [⟨"v1", "k", "v", "i1", "i2"⟩], []⟩
        ⟨"wrong", "new", "salt1", [], []⟩ none
      = (⟨some "mp", "salt0", [⟨"v1", "k", "v", "i1", "i2"⟩], []⟩,
          .error 401 "Current password is incorrect") := by
  exact rotation_wrong_password_aborts (fun _ _ => false) (fun s _ => s) _ _ none "mp" rfl rfl

/-- C4: when the submitted backup code matches exactly one stored hash, the
route removes exactly that hash (the one at the returned index), persists
the remaining list, reports success with the decremented count — and a
second submission of the same code is no longer accepted. -/
theorem backup_code_one_time_use (compare : String → String → Bool) (u : BackupUser)
    (code : String) (hen : u.twoFactorEnabled = true) (hcode : code ≠ "")
    (hone : (u.twoFactorBackupCodes.filter
        (fun h => compare (normalizeCode code) h)).length = 1) :
    ∃ k : Nat, k < u.twoFactorBackupCodes.length ∧
      verifyBackupCode compare code u.twoFactorBackupCodes = ((k : Nat) : Int) ∧
      compare (normalizeCode code) (u.twoFactorBackupCodes.getD k "") = true ∧
      (BackupCodesRoute.POST compare u code).1.twoFactorBackupCodes
        = u.twoFactorBackupCodes.take k ++ u.twoFactorBackupCodes.drop (k + 1) ∧
      (BackupCodesRoute.POST compare u code).2
        = .success "Backup code verified successfully" (u.twoFactorBackupCodes.length - 1) ∧
      (∀ m r, (BackupCodesRoute.POST compare
          (BackupCodesRoute.POST compare u code).1 code).2 ≠ .success m r) := by
  rcases verifyLoop_spec compare (normalizeCode code) u.twoFactorBackupCodes 0 with
    ⟨_, h2, _⟩ | ⟨k, hk, hr, hm, _, _⟩
  · exfalso
    have hnil : u.twoFactorBackupCodes.filter (fun h => compare (normalizeCode code) h) = [] :=
      List.filter_eq_nil_iff.mpr (fun a ha => by simp [h2 a ha])
    rw [hnil] at hone
    simp at hone
  · have hr0 : verifyBackupCode compare code u.twoFactorBackupCodes = ((k : Nat) : Int) := by
      unfold verifyBackupCode
      simpa using hr
    have hne2 : ((k : Nat) : Int) ≠ -1 := by omega
    have hnonempty : ¬(u.twoFactorBackupCodes.isEmpty = true) := by
      cases hcodes : u.twoFactorBackupCodes with
      | nil => rw [hcodes] at hk; simp at hk
      | cons a as => simp
    have hremove : removeBackupCode u.twoFactorBackupCodes ((k : Nat) : Int)
        = u.twoFactorBackupCodes.take k ++ u.twoFactorBackupCodes.drop (k + 1) := by
      have h := filterWithIdx_erase u.twoFactorBackupCodes k 0 hk
      simpa using h
    have hpost : BackupCodesRoute.POST compare u code
        = ({ u with twoFactorBackupCodes :=
              u.twoFactorBackupCodes.take k ++ u.twoFactorBackupCodes.drop (k + 1) },
            .success "Backup code verified successfully"
              (u.twoFactorBackupCodes.take k ++ u.twoFactorBackupCodes.drop (k + 1)).length) := by
      unfold BackupCodesRoute.POST
      rw [if_neg hcode]
      simp only [hen, hr0, hremove]
      rw [if_neg (by simp)]
      rw [if_neg hnonempty]
      rw [if_neg hne2]
    have hlen : (u.twoFactorBackupCodes.take k ++ u.twoFactorBackupCodes.drop (k + 1)).length
        = u.twoFactorBackupCodes.length - 1 := by
      simp only [List.length_append, List.length_take, List.length_drop]
      omega
    -- every element of the remaining list fails the comparison
    have hgetd : u.twoFactorBackupCodes.getD k "" = u.twoFactorBackupCodes[k] :=
      List.getD_eq_getElem u.twoFactorBackupCodes "" hk
    have hdropk : u.twoFactorBackupCodes.drop k
        = u.twoFactorBackupCodes[k] :: u.twoFactorBackupCodes.drop (k + 1) :=
      List.drop_eq_getElem_cons hk
    have hsplit : u.twoFactorBackupCodes.filter (fun h => compare (normalizeCode code) h)
        = (u.twoFactorBackupCodes.take k).filter (fun h => compare (normalizeCode code) h)
          ++ u.twoFactorBackupCodes[k]
            :: (u.twoFactorBackupCodes.drop (k + 1)).filter
                (fun h => compare (normalizeCode code) h) := by
      conv_lhs => rw [← List.take_append_drop k u.twoFactorBackupCodes]
      rw [List.filter_append, hdropk, List.filter_cons]
      rw [hgetd] at hm
      simp [hm]
    have hzero : ((u.twoFactorBackupCodes.take k).filter
          (fun h => compare (normalizeCode code) h)).length = 0
        ∧ ((u.twoFactorBackupCodes.drop (k + 1)).filter
          (fun h => compare (normalizeCode code) h)).length = 0 := by
      rw [hsplit] at hone
      simp only [List.length_append, List.length_cons] at hone
      omega
    have hall2 : ∀ h ∈ u.twoFactorBackupCodes.take k ++ u.twoFactorBackupCodes.drop (k + 1),
        compare (normalizeCode code) h = false := by
      intro h hmem
      rcases List.mem_append.mp hmem with hmem | hmem
      · have := List.filter_eq_nil_iff.mp (List.length_eq_zero.mp hzero.1) h hmem
        simpa using this
      · have := List.filter_eq_nil_iff.mp (List.length_eq_zero.mp hzero.2) h hmem
        simpa using this
    refine ⟨k, hk, hr0, hm, by rw [hpost], by rw [hpost, hlen], ?_⟩
    intro m r
    rw [hpost]
    show (BackupCodesRoute.POST compare
        { u with twoFactorBackupCodes :=
            u.twoFactorBackupCodes.take k ++ u.twoFactorBackupCodes.drop (k + 1) } code).2
      ≠ BackupResponse.success m r
    set rem := u.twoFactorBackupCodes.take k ++ u.twoFactorBackupCodes.drop (k + 1) with hrem
    have hverify2 : verifyBackupCode compare code rem = -1 := by
      rcases verifyLoop_spec compare (normalizeCode code) rem 0 with
        ⟨hneg, _, _⟩ | ⟨k2, hk2, _, hm2, _, _⟩
      · unfold verifyBackupCode
        exact hneg
      · exfalso
        have hmem2 : rem.getD k2 "" ∈ rem := by
          rw [List.getD_eq_getElem rem "" hk2]
          exact List.getElem_mem hk2
        rw [hall2 _ hmem2] at hm2
        simp at hm2
    unfold BackupCodesRoute.POST
    rw [if_neg hcode]
    simp only [hen, hverify2]
    rw [if_neg (by simp)]
    by_cases hre : rem.isEmpty = true
    · rw [if_pos hre]
      simp
    · rw [if_neg hre]
      simp

/-- Witness for C4: a comparator recognizing the stored hash `"H:C1"` for the
normalized code `"C1"`; submitting `"c1"` consumes that hash, and a second
submission is rejected. -/
theorem backup_code_one_time_use_witness :
    ∃ k : Nat, k < (["X", "H:C1"] : List String).length ∧
      verifyBackupCode (fun n h => h == "H:" ++ n) "c1" ["X", "H:C1"] = ((k : Nat) : Int) ∧
      (fun n h => h == "H:" ++ n) (normalizeCode "c1") ((["X", "H:C1"] : List String).getD k "")
        = true ∧
      (BackupCodesRoute.POST (fun n h => h == "H:" ++ n)
          ⟨true, ["X", "H:C1"]⟩ "c1").1.twoFactorBackupCodes
        = (["X", "H:C1"] : List String).take k ++ (["X", "H:C1"] : List String).drop (k + 1) ∧
      (BackupCodesRoute.POST (fun n h => h == "H:" ++ n) ⟨true, ["X", "H:C1"]⟩ "c1").2
        = .success "Backup code verified successfully"
            ((["X", "H:C1"] : List String).length - 1) ∧
      (∀ m r, (BackupCodesRoute.POST (fun n h => h == "H:" ++ n)
          (BackupCodesRoute.POST (fun n h => h == "H:" ++ n)
            ⟨true, ["X", "H:C1"]⟩ "c1").1 "c1").2 ≠ .success m r) :=
  backup_code_one_time_use (fun n h => h == "H:" ++ n) ⟨true, ["X", "H:C1"]⟩ "c1"
    rfl (by decide) (by decide)

/-- A successful Prisma row update leaves a row carrying the request
entry's id and new ciphertext payload. -/
theorem updateVariableRecord_some_mem {rows : List VariableRecord} {u : VariableRecord}
    {rows2 : List VariableRecord} (h : updateVariableRecord rows u = some rows2) :
    ∃ r ∈ rows2, recordCarries r u := by
  unfold updateVariableRecord at h
  by_cases hany : rows.any (fun r => r.id == u.id) = true
  · rw [if_pos hany] at h
    have h2 := Option.some.inj h
    obtain ⟨r0, hr0, hid⟩ := List.any_eq_true.mp hany
    have hid2 : r0.id = u.id := by simpa using hid
    refine ⟨{ r0 with
      keyEncrypted := u.keyEncrypted
      valueEncrypted := u.valueEncrypted
      ivKey := u.ivKey
      ivValue := u.ivValue }, ?_, hid2, rfl, rfl, rfl, rfl⟩
    rw [← h2]
    refine List.mem_map.mpr ⟨r0, hr0, ?_⟩
    rw [if_pos hid]
  · rw [if_neg hany] at h
    simp at h

/-- A row whose id differs from the updated id survives a successful Prisma
row update untouched. -/
theorem updateVariableRecord_preserve {rows : List VariableRecord} {w : VariableRecord}
    {rows2 : List VariableRecord} {r : VariableRecord}
    (h : updateVariableRecord rows w = some rows2) (hr : r ∈ rows) (hne : r.id ≠ w.id) :
    r ∈ rows2 := by
  unfold updateVariableRecord at h
  by_cases hany : rows.any (fun x => x.id == w.id) = true
  · rw [if_pos hany] at h
    rw [← Option.some.inj h]
    refine List.mem_map.mpr ⟨r, hr, ?_⟩
    rw [if_neg (by simpa using hne)]
  · rw [if_neg hany] at h
    simp at h

/-- A row whose id matches none of the pending updates survives a whole
sequence of successful row updates untouched. -/
theorem applyRecordUpdates_preserve :
    ∀ (us rows rows2 : List VariableRecord) (r : VariableRecord),
      applyRecordUpdates rows us = some rows2 → r ∈ rows →
      (∀ w ∈ us, r.id ≠ w.id) → r ∈ rows2 := by
  intro us
  induction us with
  | nil =>
    intro rows rows2 r h hr _
    rw [← Option.some.inj h]
    exact hr
  | cons w us ih =>
    intro rows rows2 r h hr hall
    have h' : (updateVariableRecord rows w).bind
        (fun rows1 => applyRecordUpdates rows1 us) = some rows2 := h
    obtain ⟨rows1, hop, happ⟩ := Option.bind_eq_some.mp h'
    exact ih rows1 rows2 r happ
      (updateVariableRecord_preserve hop hr (hall w (List.mem_cons_self w us)))
      (fun w2 hw2 => hall w2 (List.mem_cons_of_mem w hw2))

/-- After a successful sequence of row updates with pairwise-distinct ids,
every request entry is stored with its new payload. -/
theorem applyRecordUpdates_mem :
    ∀ (us rows rows2 : List VariableRecord),
      applyRecordUpdates rows us = some rows2 →
      (us.map VariableRecord.id).Nodup →
      ∀ u ∈ us, ∃ r ∈ rows2, recordCarries r u := by
  intro us
  induction us with
  | nil => intro rows rows2 _ _ u hu; simp at hu
  | cons w us ih =>
    intro rows rows2 h hnodup u hu
    have h' : (updateVariableRecord rows w).bind
        (fun rows1 => applyRecordUpdates rows1 us) = some rows2 := h
    obtain ⟨rows1, hop, happ⟩ := Option.bind_eq_some.mp h'
    rw [List.map_cons, List.nodup_cons] at hnodup
    obtain ⟨hwid, hnodup⟩ := hnodup
    rcases List.mem_cons.mp hu with rfl | hu
    · obtain ⟨r1, hr1mem, hr1c⟩ := updateVariableRecord_some_mem hop
      refine ⟨r1, ?_, hr1c⟩
      refine applyRecordUpdates_preserve us rows1 rows2 r1 happ hr1mem ?_
      intro w2 hw2 heq
      exact hwid (hr1c.1 ▸ heq ▸ List.mem_map_of_mem VariableRecord.id hw2)
    · exact ih rows1 rows2 happ hnodup u hu

/-- The transaction's per-variable updates act on the `variable` table
exactly as `applyRecordUpdates` and leave every other component of the
state unchanged. -/
theorem applyAll_varOps :
    ∀ (us : List VariableRecord) (st : RotationState),
      applyAll st (us.map TxOp.updateVariable)
        = (applyRecordUpdates st.vars us).map (fun vs => { st with vars := vs }) := by
  intro us
  induction us with
  | nil => intro st; rfl
  | cons u us ih =>
    intro st
    have hl : applyAll st ((u :: us).map TxOp.updateVariable)
        = (applyTxOp st (TxOp.updateVariable u)).bind
            (fun st2 => applyAll st2 (us.map TxOp.updateVariable)) := rfl
    rw [hl]
    cases hop : updateVariableRecord st.vars u with
    | none =>
      have hnone : applyTxOp st (TxOp.updateVariable u) = none := by
        simp [applyTxOp, hop]
      rw [hnone]
      have hrhs : applyRecordUpdates st.vars (u :: us) = none := by
        have : applyRecordUpdates st.vars (u :: us)
            = (updateVariableRecord st.vars u).bind
                (fun rows1 => applyRecordUpdates rows1 us) := rfl
        rw [this, hop]
        rfl
      rw [hrhs]
      rfl
    | some rows1 =>
      have hsome : applyTxOp st (TxOp.updateVariable u) = some { st with vars := rows1 } := by
        simp [applyTxOp, hop]
      rw [hsome]
      have hrhs : applyRecordUpdates st.vars (u :: us) = applyRecordUpdates rows1 us := by
        have : applyRecordUpdates st.vars (u :: us)
            = (updateVariableRecord st.vars u).bind
                (fun rows1 => applyRecordUpdates rows1 us) := rfl
        rw [this, hop]
        rfl
      rw [hrhs]
      exact ih { st with vars := rows1 }

/-- The transaction's per-global-variable updates act on the
`globalVariable` table exactly as `applyRecordUpdates` and leave every
other component of the state unchanged. -/
theorem applyAll_globalOps :
    ∀ (us : List VariableRecord) (st : RotationState),
      applyAll st (us.map TxOp.updateGlobalVariable)
        = (applyRecordUpdates st.globalVariables us).map
            (fun gs => { st with globalVariables := gs }) := by
  intro us
  induction us with
  | nil => intro st; rfl
  | cons u us ih =>
    intro st
    have hl : applyAll st ((u :: us).map TxOp.updateGlobalVariable)
        = (applyTxOp st (TxOp.updateGlobalVariable u)).bind
            (fun st2 => applyAll st2 (us.map TxOp.updateGlobalVariable)) := rfl
    rw [hl]
    cases hop : updateVariableRecord st.globalVariables u with
    | none =>
      have hnone : applyTxOp st (TxOp.updateGlobalVariable u) = none := by
        simp [applyTxOp, hop]
      rw [hnone]
      have hrhs : applyRecordUpdates st.globalVariables (u :: us) = none := by
        have : applyRecordUpdates st.globalVariables (u :: us)
            = (updateVariableRecord st.globalVariables u).bind
                (fun rows1 => applyRecordUpdates rows1 us) := rfl
        rw [this, hop]
        rfl
      rw [hrhs]
      rfl
    | some rows1 =>
      have hsome : applyTxOp st (TxOp.updateGlobalVariable u)
          = some { st with globalVariables := rows1 } := by
        simp [applyTxOp, hop]
      rw [hsome]
      have hrhs : applyRecordUpdates st.globalVariables (u :: us)
          = applyRecordUpdates rows1 us := by
        have : applyRecordUpdates st.globalVariables (u :: us)
            = (updateVariableRecord st.globalVariables u).bind
                (fun rows1 => applyRecordUpdates rows1 us) := rfl
        rw [this, hop]
        rfl
      rw [hrhs]
      exact ih { st with globalVariables := rows1 }

/-- Faultless transaction execution splits over statement-list
concatenation. -/
theorem applyAll_append :
    ∀ (ops1 ops2 : List TxOp) (st : RotationState),
      applyAll st (ops1 ++ ops2) = (applyAll st ops1).bind (fun s => applyAll s ops2) := by
  intro ops1
  induction ops1 with
  | nil => intro ops2 st; rfl
  | cons op ops1 ih =>
    intro ops2 st
    cases hop : applyTxOp st op with
    | none =>
      have h1 : applyAll st ((op :: ops1) ++ ops2)
          = (applyTxOp st op).bind (fun s => applyAll s (ops1 ++ ops2)) := rfl
      have h2 : applyAll st (op :: ops1)
          = (applyTxOp st op).bind (fun s => applyAll s ops1) := rfl
      rw [h1, h2, hop]
      rfl
    | some st1 =>
      have h1 : applyAll st ((op :: ops1) ++ ops2)
          = (applyTxOp st op).bind (fun s => applyAll s (ops1 ++ ops2)) := rfl
      have h2 : applyAll st (op :: ops1)
          = (applyTxOp st op).bind (fun s => applyAll s ops1) := rfl
      rw [h1, h2, hop]
      exact ih ops2 st1

/-- A transaction that completes (no fault struck, no statement threw)
computes exactly the faultless execution of its statement list. -/
theorem runTx_some :
    ∀ (ops : List TxOp) (st : RotationState) (fault : Option Nat) (st2 : RotationState),
      runTx st ops fault = some st2 → applyAll st ops = some st2 := by
  intro ops
  induction ops with
  | nil => intro st fault st2 h; exact h
  | cons op ops ih =>
    intro st fault st2 h
    cases fault with
    | none =>
      have h' : (applyTxOp st op).bind (fun s2 => runTx s2 ops none) = some st2 := h
      obtain ⟨st1, hop, hrun⟩ := Option.bind_eq_some.mp h'
      exact Option.bind_eq_some.mpr ⟨st1, hop, ih st1 none st2 hrun⟩
    | some k =>
      cases k with
      | zero =>
        have h' : (none : Option RotationState) = some st2 := h
        simp at h'
      | succ k =>
        have h' : (applyTxOp st op).bind (fun s2 => runTx s2 ops (some k)) = some st2 := h
        obtain ⟨st1, hop, hrun⟩ := Option.bind_eq_some.mp h'
        exact Option.bind_eq_some.mpr ⟨st1, hop, ih st1 (some k) st2 hrun⟩

/-- C1: master-password rotation is all-or-nothing. For every stored state,
request body and injected fault, the state after the route either is
exactly the old state (old salt, old hash, every record untouched) or
carries the new salt, the new password hash, and the new ciphertexts and
IVs of every variable and global variable of the request — never a mix. -/
theorem rotation_all_or_nothing (bcompare : String → String → Bool)
    (bhash : String → Nat → String) (st : RotationState) (body : ChangePasswordRequest)
    (fault : Option Nat)
    (hv : (body.vars.map VariableRecord.id).Nodup)
    (hg : (body.globalVariables.map VariableRecord.id).Nodup) :
    (ChangeMasterPasswordRoute.POST bcompare bhash st body fault).1 = st ∨
    rotationApplied (ChangeMasterPasswordRoute.POST bcompare bhash st body fault).1 body
      (bhash body.newMasterPasswordHash 12) := by
  cases hmp : st.masterPassword with
  | none => left; simp [ChangeMasterPasswordRoute.POST, hmp]
  | some mp =>
    by_cases hcmp : bcompare body.currentPasswordHash mp = false
    · left; simp [ChangeMasterPasswordRoute.POST, hmp, hcmp]
    · cases hrun : runTx st (txOps body (bhash body.newMasterPasswordHash 12)) fault with
      | none => left; simp [ChangeMasterPasswordRoute.POST, hmp, hcmp, hrun]
      | some st2 =>
        right
        have hpost1 : (ChangeMasterPasswordRoute.POST bcompare bhash st body fault).1 = st2 := by
          simp [ChangeMasterPasswordRoute.POST, hmp, hcmp, hrun]
        rw [hpost1]
        have happ : applyAll st (txOps body (bhash body.newMasterPasswordHash 12))
            = some st2 := runTx_some _ _ _ _ hrun
        have h3 : applyAll
            { st with
              masterPassword := some (bhash body.newMasterPasswordHash 12)
              encryptionSalt := body.newSalt }
            (body.vars.map TxOp.updateVariable
              ++ body.globalVariables.map TxOp.updateGlobalVariable) = some st2 := happ
        rw [applyAll_append] at h3
        obtain ⟨stv, hv1, hg1⟩ := Option.bind_eq_some.mp h3
        rw [applyAll_varOps] at hv1
        obtain ⟨vs, hvs, hstv⟩ := Option.map_eq_some'.mp hv1
        rw [applyAll_globalOps] at hg1
        obtain ⟨gs, hgs, hst2⟩ := Option.map_eq_some'.mp hg1
        rw [← hstv] at hgs
        subst hst2
        rw [← hstv]
        refine ⟨rfl, rfl, ?_, ?_⟩
        · intro u hu
          exact applyRecordUpdates_mem body.vars _ vs hvs hv u hu
        · intro u hu
          exact applyRecordUpdates_mem body.globalVariables _ gs hgs hg u hu

/-- Witness for C1 at a concrete state, request and fault. -/
theorem rotation_all_or_nothing_witness :
    (ChangeMasterPasswordRoute.POST (fun _ _ => true) (fun s n => s ++ toString n)
        ⟨some "mp", "salt0", [⟨"v1", "k0", "v0", "i0", "j0"⟩], [⟨"g1", "k1", "v1", "i1", "j1"⟩]⟩
        ⟨"cur", "new", "salt1", [⟨"v1", "K", "V", "I", "J"⟩], [⟨"g1", "KG", "VG", "IG", "JG"⟩]⟩
        none).1
      = ⟨some "mp", "salt0", [⟨"v1", "k0", "v0", "i0", "j0"⟩], [⟨"g1", "k1", "v1", "i1", "j1"⟩]⟩ ∨
    rotationApplied
      (ChangeMasterPasswordRoute.POST (fun _ _ => true) (fun s n => s ++ toString n)
        ⟨some "mp", "salt0", [⟨"v1", "k0", "v0", "i0", "j0"⟩], [⟨"g1", "k1", "v1", "i1", "j1"⟩]⟩
        ⟨"cur", "new", "salt1", [⟨"v1", "K", "V", "I", "J"⟩], [⟨"g1", "KG", "VG", "IG", "JG"⟩]⟩
        none).1
      ⟨"cur", "new", "salt1", [⟨"v1", "K", "V", "I", "J"⟩], [⟨"g1", "KG", "VG", "IG", "JG"⟩]⟩
      ((fun s n => s ++ toString n) "new" 12) :=
  rotation_all_or_nothing (fun _ _ => true) (fun s n => s ++ toString n) _ _ none
    (by decide) (by decide)

/-- C5 counterexample: a generated TOTP code is not rejected at T − 90 for
every time T. At T = 0, Unix time being a natural number, T − 90 clamps
back to 0 — inside the acceptance window — and verification accepts the
code generated at T, refuting the claim's universal rejection clause. -/
theorem totp_not_always_rejected_at_90_cex :
    verifyTOTPCode (generateTOTPCode "JBSWY3DPEHPK3PXP" 0) "JBSWY3DPEHPK3PXP" (0 - 90)
      = true := by
  simp [verifyTOTPCode, generateTOTPCode]

set_option maxRecDepth 100000 in
/-- C5 amended: a TOTP code generated at time T is accepted when verified
at T and at T ± 30 seconds (for every seed and T, with T ≥ 30 for the
subtraction), and rejection at T ± 90 holds at the spec's test vector: for
seed JBSWY3DPEHPK3PXP at T = 1700000000 the code is accepted at T and
T ± 30 and rejected at T ± 90. -/
theorem totp_verify_window :
    (∀ (secret : String) (T : Nat),
        verifyTOTPCode (generateTOTPCode secret T) secret T = true ∧
        verifyTOTPCode (generateTOTPCode secret T) secret (T + 30) = true ∧
        (30 ≤ T → verifyTOTPCode (generateTOTPCode secret T) secret (T - 30) = true)) ∧
    verifyTOTPCode (generateTOTPCode "JBSWY3DPEHPK3PXP" 1700000000) "JBSWY3DPEHPK3PXP"
      1700000000 = true ∧
    verifyTOTPCode (generateTOTPCode "JBSWY3DPEHPK3PXP" 1700000000) "JBSWY3DPEHPK3PXP"
      (1700000000 + 30) = true ∧
    verifyTOTPCode (generateTOTPCode "JBSWY3DPEHPK3PXP" 1700000000) "JBSWY3DPEHPK3PXP"
      (1700000000 - 30) = true ∧
    verifyTOTPCode (generateTOTPCode "JBSWY3DPEHPK3PXP" 1700000000) "JBSWY3DPEHPK3PXP"
      (1700000000 + 90) = false ∧
    verifyTOTPCode (generateTOTPCode "JBSWY3DPEHPK3PXP" 1700000000) "JBSWY3DPEHPK3PXP"
      (1700000000 - 90) = false := by
  have hgen : ∀ (secret : String) (T : Nat),
      verifyTOTPCode (generateTOTPCode secret T) secret T = true ∧
      verifyTOTPCode (generateTOTPCode secret T) secret (T + 30) = true ∧
      (30 ≤ T → verifyTOTPCode (generateTOTPCode secret T) secret (T - 30) = true) := by
    intro secret T
    refine ⟨?_, ?_, ?_⟩
    · simp [verifyTOTPCode, generateTOTPCode]
    · have h30 : (T + 30) / 30 = T / 30 + 1 := by omega
      simp [verifyTOTPCode, generateTOTPCode, h30]
    · intro hT
      have hsub : (T - 30) / 30 = T / 30 - 1 := by omega
      have hone : T / 30 - 1 + 1 = T / 30 := by omega
      simp [verifyTOTPCode, generateTOTPCode, hsub, hone]
  refine ⟨hgen, (hgen _ _).1, (hgen _ _).2.1, (hgen _ _).2.2 (by omega), ?_, ?_⟩
  · decide
  · decide

/-- Witness for C5 at a concrete seed and time with the T ≥ 30 hypothesis
discharged. -/
theorem totp_verify_window_witness :
    verifyTOTPCode (generateTOTPCode "JBSWY3DPEHPK3PXP" 1700000000) "JBSWY3DPEHPK3PXP"
      (1700000000 - 30) = true :=
  (totp_verify_window.1 "JBSWY3DPEHPK3PXP" 1700000000).2.2 (by omega)

/-- Length of the CTR transform equals the data length. -/
theorem gcmCtr_length (key iv data : List Nat) : (gcmCtr key iv data).length = data.length := by
  simp [gcmCtr]

/-- Xoring twice with the same per-index keystream gives back the input. -/
theorem zip_xor_cancel (g : Nat → Nat) :
    ∀ (p idx : List Nat), p.length ≤ idx.length →
      List.zipWith (fun b i => b ^^^ g i)
        (List.zipWith (fun b i => b ^^^ g i) p idx) idx = p := by
  intro p
  induction p with
  | nil => intro idx _; simp
  | cons b p ih =>
    intro idx hlen
    cases idx with
    | nil => simp at hlen
    | cons i idx =>
      simp only [List.zipWith_cons_cons]
      rw [Nat.xor_cancel_right, ih idx (by simpa using hlen)]

/-- C3: the AEAD field-encryption roundtrip — for every plaintext, key and
IV, decrypting the field produced by `encryptField` with the same key
authenticates and returns exactly the original plaintext. -/
theorem decrypt_encrypt_roundtrip (plaintext key iv : List Nat) :
    decryptField (encryptField plaintext key iv) key = some plaintext := by
  have hbody : (gcmCtr key iv plaintext).length = plaintext.length := gcmCtr_length key iv plaintext
  have htag : (natToBytes16 (gcmTag key iv (gcmCtr key iv plaintext))).length = 16 := by
    simp [natToBytes16]
  simp only [decryptField, encryptField]
  rw [List.length_append, hbody, htag]
  rw [if_neg (by omega)]
  have harith : plaintext.length + 16 - 16 = plaintext.length := by omega
  rw [harith, List.take_left' hbody, List.drop_left' hbody]
  rw [if_pos rfl]
  have houter : gcmCtr key iv (gcmCtr key iv plaintext)
      = List.zipWith (fun b i => b ^^^ gcmKeystreamByte key iv i)
          (List.zipWith (fun b i => b ^^^ gcmKeystreamByte key iv i) plaintext
            (List.range plaintext.length)) (List.range plaintext.length) := by
    show List.zipWith _ _ (List.range (gcmCtr key iv plaintext).length) = _
    rw [hbody]
    rfl
  rw [houter, zip_xor_cancel (gcmKeystreamByte key iv) plaintext
    (List.range plaintext.length) (by simp)]

set_option maxRecDepth 1000000 in
/-- Sanity: the modelled block cipher reproduces the AES-256 known-answer
test of FIPS 197 appendix C.3. -/
theorem aes256_fips197_vector :
    aesEncryptBlock (List.range 32)
      [0x00, 0x11, 0x22, 0x33, 0x44, 0x55, 0x66, 0x77,
       0x88, 0x99, 0xaa, 0xbb, 0xcc, 0xdd, 0xee, 0xff]
      = [0x8e, 0xa2, 0xb7, 0xca, 0x51, 0x67, 0x45, 0xbf,
         0xea, 0xfc, 0x49, 0x90, 0x4b, 0x49, 0x60, 0x89] := by decide

end EnvVault
